import Mathlib

set_option maxHeartbeats 1000000

/-!
Shallow embedding of the client-side persisted portfolio data store
(src/usePortfolioData.ts together with the default data exported from the
portfolio module) and of the generic collection editor of src/AdminPanel.tsx.
JS objects are modelled as association lists of own enumerable string-keyed
fields in property order; the object-spread and property-access primitives
the load path uses are modelled explicitly.
-/

/-- JSON-ish runtime values produced by JSON.parse and manipulated by the
store. Numbers are modelled as integers: every numeric value this program
stores is a Date.now() id. -/
inductive JVal where
  | null : JVal
  | bool (b : Bool) : JVal
  | num (n : Int) : JVal
  | str (s : String) : JVal
  | arr (elems : List JVal) : JVal
  | obj (fields : List (String × JVal)) : JVal

/-- Reading an own property of a JS object (association list). The lists this
model builds never carry duplicate keys, so the first entry wins. -/
def getKey (o : List (String × JVal)) (k : String) : Option JVal :=
  (o.find? (fun kv => kv.1 == k)).map (fun kv => kv.2)

/-- Property assignment on a JS object: replaces the value in place when the
key is present, otherwise appends a new entry (JS property-creation order). -/
def setKey (o : List (String × JVal)) (k : String) (v : JVal) : List (String × JVal) :=
  if o.any (fun kv => kv.1 == k) then
    o.map (fun kv => if kv.1 == k then (k, v) else kv)
  else o ++ [(k, v)]

/-- Spreading a list of fields into an accumulator object, in order; later
fields override earlier ones, as in a JS object literal with spreads. -/
def spreadInto (acc : List (String × JVal)) (fields : List (String × JVal)) : List (String × JVal) :=
  fields.foldl (fun a kv => setKey a kv.1 kv.2) acc

/-- Own enumerable string-keyed properties contributed by spreading a value:
objects contribute their fields, strings and arrays contribute index keys,
primitives contribute nothing. -/
def spreadable : JVal → List (String × JVal)
  | .obj fields => fields
  | .str s => s.toList.enum.map (fun ic => (toString ic.1, JVal.str (String.singleton ic.2)))
  | .arr elems => elems.enum.map (fun ie => (toString ie.1, ie.2))
  | _ => []

/-- Spreading a possibly-undefined value: spreading undefined contributes
nothing. -/
def spreadableOpt : Option JVal → List (String × JVal)
  | none => []
  | some v => spreadable v

/-- Property access on a parsed value; only objects expose named keys.
(In JS, reading a property of null throws; in the load path that read sits
inside the try/catch and the caught path publishes the defaults, which is
the same observable state this total model produces for null.) -/
def member (v : JVal) (k : String) : Option JVal :=
  match v with
  | .obj fields => getKey fields k
  | _ => none

/-- JS truthiness of a defined value. -/
def truthy : JVal → Bool
  | .null => false
  | .bool b => b
  | .num n => n != 0
  | .str s => s != ""
  | .arr _ => true
  | .obj _ => true

/-- JS fallback on a property read: the property value when present and
truthy, else the given default. -/
def orDefault (p : JVal) (k : String) (d : JVal) : JVal :=
  match member p k with
  | some v => if truthy v then v else d
  | none => d

/-- The socials sub-object of the default model. -/
def defaultSocialsFields : List (String × JVal) :=
  [("github", JVal.str "https://github.com"),
   ("linkedin", JVal.str "https://linkedin.com"),
   ("twitter", JVal.str "https://twitter.com"),
   ("email", JVal.str "mailto:sameer.bavaji@example.com")]

/-- A Skill record of the default data. -/
def mkSkill (name icon color : String) : JVal :=
  .obj [("name", .str name), ("icon", .str icon), ("color", .str color)]

/-- A SkillCategory record of the default data. -/
def mkSkillCategory (title : String) (skills : List JVal) : JVal :=
  .obj [("title", .str title), ("skills", .arr skills)]

/-- The default skills sequence of the default model. -/
def defaultSkills : JVal :=
  .arr
    [mkSkillCategory "Frontend"
      [mkSkill "React" "FaReact" "#61DAFB",
       mkSkill "Next.js" "SiNextdotjs" "#000000",
       mkSkill "Vue.js" "FaVuejs" "#4FC08D",
       mkSkill "TypeScript" "SiTypescript" "#3178C6",
       mkSkill "JavaScript" "SiJavascript" "#F7DF1E",
       mkSkill "HTML5" "SiHtml5" "#E34F26",
       mkSkill "CSS3" "SiCss3" "#1572B6",
       mkSkill "Tailwind CSS" "SiTailwindcss" "#06B6D4"],
     mkSkillCategory "Backend"
      [mkSkill "Node.js" "FaNodeJs" "#339933",
       mkSkill "Express" "SiExpress" "#000000",
       mkSkill "PostgreSQL" "SiPostgresql" "#4169E1",
       mkSkill "MongoDB" "SiMongodb" "#47A248",
       mkSkill "Redis" "SiRedis" "#DC382D"],
     mkSkillCategory "Cloud & DevOps"
      [mkSkill "AWS" "FaAws" "#FF9900",
       mkSkill "Docker" "FaDocker" "#2496ED",
       mkSkill "Git" "FaGitAlt" "#F05032"],
     mkSkillCategory "Tools"
      [mkSkill "Vite" "SiVite" "#646CFF",
       mkSkill "Webpack" "SiWebpack" "#8DD6F9",
       mkSkill "Jest" "SiJest" "#C21325",
       mkSkill "Figma" "FaFigma" "#F24E1E"]]

/-- The default portfolio model, field for field and in declaration order. -/
def defaultPortfolioData : List (String × JVal) :=
  [("name", JVal.str "Sameer Bavaji"),
   ("tagline", JVal.str "I build elegant and performant web applications."),
   ("resumeUrl", JVal.str "/resume.pdf"),
   ("socials", JVal.obj defaultSocialsFields),
   ("about", JVal.str "I'm a passionate Full-Stack Developer with a knack for creating beautiful, functional, and user-centric digital experiences. With a strong foundation in modern web technologies, I enjoy tackling complex problems and turning ideas into reality. When I'm not coding, I enjoy exploring new technologies, contributing to open-source, and brewing the perfect cup of coffee."),
   ("experiences", JVal.arr []),
   ("education", JVal.arr []),
   ("skills", defaultSkills),
   ("projects", JVal.arr []),
   ("certificates", JVal.arr [])]

/-- The merge executed during load. It models the object literal of
usePortfolioData.ts: spread the defaults, spread the parsed payload, then
assign socials (sub-field spread-merge), skills, projects, certificates,
experiences and education (each a truthiness fallback to the default), in
that textual order. -/
def mergedData (parsedData : JVal) : List (String × JVal) :=
  let m0 := spreadInto defaultPortfolioData (spreadable parsedData)
  let m1 := setKey m0 "socials"
    (.obj (spreadInto defaultSocialsFields (spreadableOpt (member parsedData "socials"))))
  let m2 := setKey m1 "skills" (orDefault parsedData "skills" defaultSkills)
  let m3 := setKey m2 "projects" (orDefault parsedData "projects" (.arr []))
  let m4 := setKey m3 "certificates" (orDefault parsedData "certificates" (.arr []))
  let m5 := setKey m4 "experiences" (orDefault parsedData "experiences" (.arr []))
  setKey m5 "education" (orDefault parsedData "education" (.arr []))

/-- Observable state published by the load effect of usePortfolioData.ts.
The storage read and JSON.parse are modelled by the argument: none is absent
storage (getItem returned null, nothing is published beyond the initial
defaults), some (.error ()) is a JSON.parse exception (caught by the
try/catch, the state keeps the defaults), and some (.ok p) a successful
parse, which is merged with the defaults and published. -/
def load (savedData : Option (Except Unit JVal)) : List (String × JVal) :=
  match savedData with
  | none => defaultPortfolioData
  | some (.error _) => defaultPortfolioData
  | some (.ok parsedData) => mergedData parsedData

/-! ### Association-list lemmas for the JS object model -/

/-- First-defined choice between two optional values. -/
def firstSome (a b : Option JVal) : Option JVal :=
  match a with
  | some v => some v
  | none => b

/-- Last-wins lookup over a field list, matching the effect of repeated
in-order property assignment. -/
def lookupLast (fs : List (String × JVal)) (k : String) : Option JVal :=
  fs.foldl (fun acc kv => if kv.1 == k then some kv.2 else acc) none

theorem getKey_cons (kv : String × JVal) (o : List (String × JVal)) (k : String) :
    getKey (kv :: o) k = if kv.1 == k then some kv.2 else getKey o k := by
  by_cases h : kv.1 == k
  · simp [getKey, List.find?_cons, h]
  · simp only [Bool.not_eq_true] at h
    simp [getKey, List.find?_cons, h]

theorem getKey_append (o1 o2 : List (String × JVal)) (k : String) :
    getKey (o1 ++ o2) k = firstSome (getKey o1 k) (getKey o2 k) := by
  induction o1 with
  | nil => simp [getKey, firstSome]
  | cons kv rest ih =>
    rw [List.cons_append, getKey_cons, getKey_cons]
    by_cases h : kv.1 == k
    · simp [h, firstSome]
    · simp only [Bool.not_eq_true] at h
      simp [h, ih]

theorem getKey_eq_none_of_not_any (o : List (String × JVal)) (k : String)
    (h : o.any (fun kv => kv.1 == k) = false) : getKey o k = none := by
  induction o with
  | nil => rfl
  | cons kv rest ih =>
    simp only [List.any_cons, Bool.or_eq_false_iff] at h
    rw [getKey_cons, h.1]
    simpa using ih h.2

theorem getKey_setKey_same (o : List (String × JVal)) (k : String) (v : JVal) :
    getKey (setKey o k v) k = some v := by
  unfold setKey
  by_cases hany : o.any (fun kv => kv.1 == k)
  · rw [if_pos hany]
    induction o with
    | nil => simp at hany
    | cons kv rest ih =>
      rw [List.map_cons]
      by_cases h : kv.1 == k
      · rw [if_pos h, getKey_cons]
        simp
      · rw [if_neg (by simp [Bool.not_eq_true] at h; simp [h]), getKey_cons]
        simp only [Bool.not_eq_true] at h
        rw [h]
        simp only [Bool.false_eq_true, if_false]
        apply ih
        simpa [List.any_cons, h] using hany
  · simp only [Bool.not_eq_true] at hany
    rw [if_neg (by simp [hany])]
    rw [getKey_append, getKey_eq_none_of_not_any o k hany]
    simp [getKey_cons, firstSome]

theorem getKey_map_replace (o : List (String × JVal)) (k k2 : String) (v : JVal)
    (h : k ≠ k2) :
    getKey (o.map (fun kv => if kv.1 == k2 then (k2, v) else kv)) k = getKey o k := by
  induction o with
  | nil => rfl
  | cons kv rest ih =>
    rw [List.map_cons]
    by_cases hk : kv.1 == k2
    · have hk2 : kv.1 = k2 := by simpa using hk
      rw [if_pos hk, getKey_cons, getKey_cons]
      have h1 : (k2 == k) = false := by simp [beq_eq_false_iff_ne]; exact fun hh => h hh.symm
      have h2 : (kv.1 == k) = false := by simp [hk2, beq_eq_false_iff_ne]; exact fun hh => h hh.symm
      rw [h1, h2]
      simpa using ih
    · simp only [Bool.not_eq_true] at hk
      rw [if_neg (by simp [hk]), getKey_cons, getKey_cons]
      by_cases h2 : kv.1 == k
      · rw [h2]
        simp
      · simp only [Bool.not_eq_true] at h2
        rw [h2]
        simpa using ih

theorem getKey_setKey_ne (o : List (String × JVal)) (k k2 : String) (v : JVal)
    (h : k ≠ k2) : getKey (setKey o k2 v) k = getKey o k := by
  unfold setKey
  by_cases hany : o.any (fun kv => kv.1 == k2)
  · rw [if_pos hany]
    exact getKey_map_replace o k k2 v h
  · simp only [Bool.not_eq_true] at hany
    rw [if_neg (by simp [hany]), getKey_append]
    have h1 : (k2 == k) = false := by simp [beq_eq_false_iff_ne]; exact fun hh => h hh.symm
    rw [getKey_cons, h1]
    simp only [Bool.false_eq_true, if_false]
    cases getKey o k <;> simp [firstSome, getKey]

theorem getKey_setKey_isSome (o : List (String × JVal)) (k k2 : String) (v : JVal)
    (h : (getKey o k).isSome = true) : (getKey (setKey o k2 v) k).isSome = true := by
  by_cases hk : k = k2
  · subst hk
    rw [getKey_setKey_same]
    rfl
  · rw [getKey_setKey_ne o k k2 v hk]
    exact h

theorem foldl_assign_eq (fs : List (String × JVal)) (k : String)
    (init : Option JVal) :
    fs.foldl (fun acc kv => if kv.1 == k then some kv.2 else acc) init
      = firstSome (lookupLast fs k) init := by
  induction fs generalizing init with
  | nil => simp [lookupLast, firstSome]
  | cons kv fs ih =>
    rw [List.foldl_cons]
    rw [ih]
    have hr : lookupLast (kv :: fs) k
        = firstSome (lookupLast fs k)
            (if kv.1 == k then some kv.2 else none) := by
      unfold lookupLast
      rw [List.foldl_cons]
      exact ih _
    rw [hr]
    cases hl : lookupLast fs k with
    | some v => simp [firstSome]
    | none =>
      by_cases hk : kv.1 == k
      · simp [hk, firstSome]
      · simp only [Bool.not_eq_true] at hk
        simp [hk, firstSome]

theorem getKey_spreadInto (o : List (String × JVal)) (fs : List (String × JVal))
    (k : String) :
    getKey (spreadInto o fs) k = firstSome (lookupLast fs k) (getKey o k) := by
  induction fs generalizing o with
  | nil => simp [spreadInto, lookupLast, firstSome]
  | cons kv fs ih =>
    have hstep : spreadInto o (kv :: fs) = spreadInto (setKey o kv.1 kv.2) fs := by
      simp [spreadInto]
    rw [hstep, ih]
    have hr : lookupLast (kv :: fs) k
        = firstSome (lookupLast fs k)
            (if kv.1 == k then some kv.2 else none) := by
      unfold lookupLast
      rw [List.foldl_cons]
      exact foldl_assign_eq fs k _
    rw [hr]
    cases hl : lookupLast fs k with
    | some v => simp [firstSome]
    | none =>
      simp only [firstSome]
      by_cases hk : kv.1 == k
      · have hkk : kv.1 = k := by simpa using hk
        rw [hk]
        subst hkk
        rw [getKey_setKey_same]
        simp
      · simp only [Bool.not_eq_true] at hk
        rw [hk]
        have hne : k ≠ kv.1 := by
          intro hh
          rw [hh] at hk
          simp at hk
        simp only [Bool.false_eq_true, if_false]
        rw [getKey_setKey_ne o k kv.1 kv.2 hne]

theorem getKey_spreadInto_isSome (o : List (String × JVal))
    (fs : List (String × JVal)) (k : String)
    (h : (getKey o k).isSome = true) :
    (getKey (spreadInto o fs) k).isSome = true := by
  rw [getKey_spreadInto]
  cases hl : lookupLast fs k with
  | some v => simp [firstSome]
  | none => simpa [firstSome] using h

/-! ### C1: load is total and always yields a structurally complete model -/

/-- C1: for every persisted payload, whether absent, unparseable or missing
arbitrary fields, the load path never raises (it is total; the parse-failure
branch is the caught-exception branch) and publishes a model carrying every
field of the default model; absent storage and any parse failure degrade
exactly to the default model. -/
theorem load_never_fails_and_complete :
    (∀ (savedData : Option (Except Unit JVal)) (k : String),
        (getKey defaultPortfolioData k).isSome = true →
        (getKey (load savedData) k).isSome = true)
    ∧ load none = defaultPortfolioData
    ∧ (∀ e : Unit, load (some (Except.error e)) = defaultPortfolioData) := by
  refine ⟨?_, rfl, fun e => rfl⟩
  intro savedData k hk
  match savedData with
  | none => exact hk
  | some (.error e) => exact hk
  | some (.ok p) =>
    show (getKey (mergedData p) k).isSome = true
    unfold mergedData
    apply getKey_setKey_isSome
    apply getKey_setKey_isSome
    apply getKey_setKey_isSome
    apply getKey_setKey_isSome
    apply getKey_setKey_isSome
    apply getKey_setKey_isSome
    exact getKey_spreadInto_isSome _ _ _ hk

/-- C1 witness: loading the partial payload carrying only a name still
publishes a model in which the about field (and, by the theorem, every
default field) is present. -/
theorem load_never_fails_and_complete_witness :
    (getKey defaultPortfolioData "about").isSome = true ∧
    (getKey (load (some (Except.ok (JVal.obj [("name", JVal.str "X")])))) "about").isSome = true :=
  ⟨rfl, load_never_fails_and_complete.1
    (some (Except.ok (JVal.obj [("name", JVal.str "X")]))) "about" rfl⟩

theorem firstSome_none_right (a : Option JVal) : firstSome a none = a := by
  cases a <;> rfl

/-! ### Per-key characterization of the merged object -/

theorem getKey_mergedData_education (p : JVal) :
    getKey (mergedData p) "education" = some (orDefault p "education" (.arr [])) := by
  simp only [mergedData]
  rw [getKey_setKey_same]

theorem getKey_mergedData_experiences (p : JVal) :
    getKey (mergedData p) "experiences" = some (orDefault p "experiences" (.arr [])) := by
  simp only [mergedData]
  rw [getKey_setKey_ne _ _ _ _ (by decide), getKey_setKey_same]

theorem getKey_mergedData_certificates (p : JVal) :
    getKey (mergedData p) "certificates" = some (orDefault p "certificates" (.arr [])) := by
  simp only [mergedData]
  rw [getKey_setKey_ne _ _ _ _ (by decide), getKey_setKey_ne _ _ _ _ (by decide),
      getKey_setKey_same]

theorem getKey_mergedData_projects (p : JVal) :
    getKey (mergedData p) "projects" = some (orDefault p "projects" (.arr [])) := by
  simp only [mergedData]
  rw [getKey_setKey_ne _ _ _ _ (by decide), getKey_setKey_ne _ _ _ _ (by decide),
      getKey_setKey_ne _ _ _ _ (by decide), getKey_setKey_same]

theorem getKey_mergedData_skills (p : JVal) :
    getKey (mergedData p) "skills" = some (orDefault p "skills" defaultSkills) := by
  simp only [mergedData]
  rw [getKey_setKey_ne _ _ _ _ (by decide), getKey_setKey_ne _ _ _ _ (by decide),
      getKey_setKey_ne _ _ _ _ (by decide), getKey_setKey_ne _ _ _ _ (by decide),
      getKey_setKey_same]

theorem getKey_mergedData_socials (p : JVal) :
    getKey (mergedData p) "socials"
      = some (JVal.obj (spreadInto defaultSocialsFields (spreadableOpt (member p "socials")))) := by
  simp only [mergedData]
  rw [getKey_setKey_ne _ _ _ _ (by decide), getKey_setKey_ne _ _ _ _ (by decide),
      getKey_setKey_ne _ _ _ _ (by decide), getKey_setKey_ne _ _ _ _ (by decide),
      getKey_setKey_ne _ _ _ _ (by decide), getKey_setKey_same]

/-! ### C2: save followed by load reproduces the model -/

/-- A structurally complete socials record. -/
structure SocialsR where
  github : String
  linkedin : String
  twitter : String
  email : String

/-- A valid, structurally complete portfolio model: every field of the
default model is present with the shape the default model gives it. The
collection fields hold arbitrary JSON records, since the merge replaces
collections wholesale and never inspects their elements. -/
structure PortfolioModel where
  name : String
  tagline : String
  resumeUrl : String
  socials : SocialsR
  about : String
  experiences : List JVal
  education : List JVal
  skills : List JVal
  projects : List JVal
  certificates : List JVal

/-- The JS object a model serializes to, field for field in the default
declaration order. -/
def toFields (M : PortfolioModel) : List (String × JVal) :=
  [("name", JVal.str M.name),
   ("tagline", JVal.str M.tagline),
   ("resumeUrl", JVal.str M.resumeUrl),
   ("socials", JVal.obj
     [("github", JVal.str M.socials.github),
      ("linkedin", JVal.str M.socials.linkedin),
      ("twitter", JVal.str M.socials.twitter),
      ("email", JVal.str M.socials.email)]),
   ("about", JVal.str M.about),
   ("experiences", JVal.arr M.experiences),
   ("education", JVal.arr M.education),
   ("skills", JVal.arr M.skills),
   ("projects", JVal.arr M.projects),
   ("certificates", JVal.arr M.certificates)]

/-- What updatePortfolioData leaves in storage for a model, as seen by the
next load: JSON.stringify followed by JSON.parse round-trips a plain JSON
document to the same value, so the stored string parses back to the model's
own object. -/
def savedPayload (M : PortfolioModel) : Except Unit JVal :=
  Except.ok (JVal.obj (toFields M))

set_option maxHeartbeats 4000000 in
/-- C2: for every valid, structurally complete portfolio model, saving it
(serialize to the single storage key) and then loading (parse and merge with
the defaults) publishes a model structurally equal to the one saved. -/
theorem load_save_roundtrip (M : PortfolioModel) :
    load (some (savedPayload M)) = toFields M := by
  simp [load, savedPayload, mergedData, toFields, spreadable, member,
    orDefault, truthy, spreadableOpt, spreadInto, setKey, getKey,
    defaultPortfolioData, defaultSocialsFields]

/-! ### C3: save failure behavior -/

/-- Store state visible to the hook: the value stored under the single
portfolioData key (up to JSON round-trip) and the published React state. -/
structure StoreState where
  storage : Option JVal
  published : List (String × JVal)

/-- The updatePortfolioData function of usePortfolioData.ts, with the
success of localStorage.setItem made explicit. The source wraps nothing in
try/catch here: when setItem raises (quota exceeded or storage disabled) the
exception escapes synchronously to the caller, modelled as Except.error, and
setPortfolioData is never reached, so the previous state is not updated. -/
def updatePortfolioData (setItemOk : Bool) (newData : PortfolioModel) :
    Except Unit StoreState :=
  if setItemOk then
    Except.ok { storage := some (JVal.obj (toFields newData)),
                published := toFields newData }
  else Except.error ()

/-- C3 (code bug): at the failing input where durable storage is
unavailable, updatePortfolioData propagates the storage exception into the
caller's synchronous path (Except.error) rather than surfacing a recoverable
condition, contradicting the claimed behavior of save. -/
theorem updatePortfolioData_throws_on_storage_failure (M : PortfolioModel) :
    updatePortfolioData false M = Except.error () := rfl

/-! ### C4: unknown top-level payload fields -/

/-- C4 counterexample: merging the defaults with a payload whose only field
is the unknown top-level field bogus produces a merged object that still
contains bogus, so the claim that unknown fields are absent from the merged
result is false: the lookup is some, not none. -/
theorem mergedData_unknown_field_present_cex :
    getKey (mergedData (JVal.obj [("bogus", JVal.num 1)])) "bogus"
        = some (JVal.num 1)
    ∧ (getKey (mergedData (JVal.obj [("bogus", JVal.num 1)])) "bogus").isSome
        = true := by
  constructor <;> rfl

/-- C4 amended: the merged result carries every field of the default model,
and an unknown top-level field of the payload is retained in the merged
result with the payload's own value (JS spread copies it); unknown fields
are not dropped, but they do not displace any default-model field. -/
theorem mergedData_unknown_fields_amended :
    (∀ (p : JVal) (k : String),
        (getKey defaultPortfolioData k).isSome = true →
        (getKey (mergedData p) k).isSome = true)
    ∧ (∀ (fields : List (String × JVal)) (k : String),
        getKey defaultPortfolioData k = none →
        getKey (mergedData (JVal.obj fields)) k = lookupLast fields k) := by
  constructor
  · intro p k hk
    simp only [mergedData]
    apply getKey_setKey_isSome
    apply getKey_setKey_isSome
    apply getKey_setKey_isSome
    apply getKey_setKey_isSome
    apply getKey_setKey_isSome
    apply getKey_setKey_isSome
    exact getKey_spreadInto_isSome _ _ _ hk
  · intro fields k hk
    have hso : k ≠ "socials" := by
      intro h
      rw [h, show getKey defaultPortfolioData "socials"
            = some (JVal.obj defaultSocialsFields) from rfl] at hk
      exact Option.noConfusion hk
    have hsk : k ≠ "skills" := by
      intro h
      rw [h, show getKey defaultPortfolioData "skills"
            = some defaultSkills from rfl] at hk
      exact Option.noConfusion hk
    have hpr : k ≠ "projects" := by
      intro h
      rw [h, show getKey defaultPortfolioData "projects"
            = some (JVal.arr []) from rfl] at hk
      exact Option.noConfusion hk
    have hce : k ≠ "certificates" := by
      intro h
      rw [h, show getKey defaultPortfolioData "certificates"
            = some (JVal.arr []) from rfl] at hk
      exact Option.noConfusion hk
    have hex : k ≠ "experiences" := by
      intro h
      rw [h, show getKey defaultPortfolioData "experiences"
            = some (JVal.arr []) from rfl] at hk
      exact Option.noConfusion hk
    have hed : k ≠ "education" := by
      intro h
      rw [h, show getKey defaultPortfolioData "education"
            = some (JVal.arr []) from rfl] at hk
      exact Option.noConfusion hk
    simp only [mergedData]
    rw [getKey_setKey_ne _ _ _ _ hed, getKey_setKey_ne _ _ _ _ hex,
        getKey_setKey_ne _ _ _ _ hce, getKey_setKey_ne _ _ _ _ hpr,
        getKey_setKey_ne _ _ _ _ hsk, getKey_setKey_ne _ _ _ _ hso]
    rw [show spreadable (JVal.obj fields) = fields from rfl]
    rw [getKey_spreadInto, hk, firstSome_none_right]

/-- C4 amended witness: at the payload with the single unknown field bogus,
every default field (here about) is still present in the merged result, and
bogus is retained with its payload value. -/
theorem mergedData_unknown_fields_amended_witness :
    (getKey (mergedData (JVal.obj [("bogus", JVal.num 1)])) "about").isSome
        = true
    ∧ getKey (mergedData (JVal.obj [("bogus", JVal.num 1)])) "bogus"
        = lookupLast [("bogus", JVal.num 1)] "bogus" :=
  ⟨mergedData_unknown_fields_amended.1 (JVal.obj [("bogus", JVal.num 1)]) "about" rfl,
   mergedData_unknown_fields_amended.2 [("bogus", JVal.num 1)] "bogus" rfl⟩

/-! ### C6: socials merge at the sub-field level -/

/-- C6: whenever the payload carries a socials object, the merged socials
field is the defaults spread-overridden by the payload's socials fields: a
sub-field from the payload overrides the default exactly when present (last
occurrence wins), and a missing sub-field keeps the default; in particular a
payload socials holding only github overrides github alone and keeps the
default linkedin, twitter and email. -/
theorem mergedData_socials_subfield_merge :
    (∀ (p : JVal) (S : List (String × JVal)),
        member p "socials" = some (JVal.obj S) →
        getKey (mergedData p) "socials"
            = some (JVal.obj (spreadInto defaultSocialsFields S))
        ∧ (∀ k : String, k ∈ ["github", "linkedin", "twitter", "email"] →
            getKey (spreadInto defaultSocialsFields S) k
              = firstSome (lookupLast S k) (getKey defaultSocialsFields k)))
    ∧ getKey (mergedData (JVal.obj [("socials", JVal.obj [("github", JVal.str "x")])]))
        "socials"
      = some (JVal.obj
          [("github", JVal.str "x"),
           ("linkedin", JVal.str "https://linkedin.com"),
           ("twitter", JVal.str "https://twitter.com"),
           ("email", JVal.str "mailto:sameer.bavaji@example.com")]) := by
  constructor
  · intro p S h
    constructor
    · rw [getKey_mergedData_socials p, h]
      rfl
    · intro k _
      exact getKey_spreadInto _ S k
  · rfl

/-- C6 witness: at the payload whose socials carries only github, the merged
socials is the defaults overridden at github, and reading the absent
linkedin sub-field through the merge gives the default (the payload lookup
is empty). -/
theorem mergedData_socials_subfield_merge_witness :
    getKey (mergedData (JVal.obj [("socials", JVal.obj [("github", JVal.str "x")])]))
        "socials"
      = some (JVal.obj (spreadInto defaultSocialsFields [("github", JVal.str "x")]))
    ∧ getKey (spreadInto defaultSocialsFields [("github", JVal.str "x")]) "linkedin"
      = firstSome (lookupLast [("github", JVal.str "x")] "linkedin")
          (getKey defaultSocialsFields "linkedin") := by
  have h := mergedData_socials_subfield_merge.1
    (JVal.obj [("socials", JVal.obj [("github", JVal.str "x")])])
    [("github", JVal.str "x")] rfl
  exact ⟨h.1, h.2 "linkedin" (by simp)⟩

/-! ### C10: empty collections survive, absent or null collections default -/

/-- C10: during the merge, a collection field present in the payload as an
empty array is kept as the empty array (an empty array is truthy), while a
collection absent from the payload or present as null (both falsy) falls
back to the default model's sequence, so a session that deleted every record
of a collection still observes that collection empty after reload. -/
theorem mergedData_collections_empty_kept_absent_default :
    ∀ k : String,
      k ∈ ["experiences", "education", "projects", "certificates", "skills"] →
      ∀ p : JVal,
        (member p k = some (JVal.arr []) →
            getKey (mergedData p) k = some (JVal.arr []))
        ∧ ((member p k = none ∨ member p k = some JVal.null) →
            getKey (mergedData p) k = getKey defaultPortfolioData k) := by
  intro k hk p
  fin_cases hk
  · rw [getKey_mergedData_experiences]
    constructor
    · intro h
      simp [orDefault, h, truthy]
    · intro h
      rw [show getKey defaultPortfolioData "experiences" = some (JVal.arr []) from rfl]
      rcases h with h | h <;> simp [orDefault, h, truthy]
  · rw [getKey_mergedData_education]
    constructor
    · intro h
      simp [orDefault, h, truthy]
    · intro h
      rw [show getKey defaultPortfolioData "education" = some (JVal.arr []) from rfl]
      rcases h with h | h <;> simp [orDefault, h, truthy]
  · rw [getKey_mergedData_projects]
    constructor
    · intro h
      simp [orDefault, h, truthy]
    · intro h
      rw [show getKey defaultPortfolioData "projects" = some (JVal.arr []) from rfl]
      rcases h with h | h <;> simp [orDefault, h, truthy]
  · rw [getKey_mergedData_certificates]
    constructor
    · intro h
      simp [orDefault, h, truthy]
    · intro h
      rw [show getKey defaultPortfolioData "certificates" = some (JVal.arr []) from rfl]
      rcases h with h | h <;> simp [orDefault, h, truthy]
  · rw [getKey_mergedData_skills]
    constructor
    · intro h
      simp [orDefault, h, truthy]
    · intro h
      rw [show getKey defaultPortfolioData "skills" = some defaultSkills from rfl]
      rcases h with h | h <;> simp [orDefault, h, truthy]

/-- C10 witness: a payload whose projects is the empty array keeps projects
empty after the merge, and a payload with no skills field at all falls back
to the default skills sequence. -/
theorem mergedData_collections_witness :
    getKey (mergedData (JVal.obj [("projects", JVal.arr [])])) "projects"
      = some (JVal.arr [])
    ∧ getKey (mergedData (JVal.obj [])) "skills"
      = getKey defaultPortfolioData "skills" := by
  refine ⟨?_, ?_⟩
  · exact (mergedData_collections_empty_kept_absent_default "projects"
      (by simp) (JVal.obj [("projects", JVal.arr [])])).1 rfl
  · exact (mergedData_collections_empty_kept_absent_default "skills"
      (by simp) (JVal.obj [])).2 (Or.inl rfl)

/-! ### The collection editor of AdminPanel.tsx -/

/-- A Project record, as in the type declarations and the projects editor
section. -/
structure ProjectR where
  id : Nat
  title : String
  description : String
  image : String
  tags : List String
  liveUrl : String
  githubUrl : String
deriving DecidableEq

/-- The record factory passed as newItem for the projects section; the
argument is the value Date.now() returned at the moment of creation. -/
def newProjectItem (now : Nat) : ProjectR :=
  { id := now, title := "New Project", description := "",
    image := "https://picsum.photos/seed/new/600/400", tags := [],
    liveUrl := "#", githubUrl := "#" }

/-- handleAddItem of EditableSection: prepends the freshly constructed
record to the front of the sequence. -/
def handleAddItem (newItem : ProjectR) (items : List ProjectR) : List ProjectR :=
  newItem :: items

/-- handleDeleteItem of EditableSection, namely the state update performed
once the user confirms: keeps exactly the records whose id differs from the
target id. -/
def handleDeleteItem (items : List ProjectR) (id : Nat) : List ProjectR :=
  items.filter (fun item => item.id != id)

/-- The editable fields of a Project: the keys handleItemChange can be
called with. -/
inductive ProjectField where
  | id
  | title
  | description
  | image
  | tags
  | liveUrl
  | githubUrl
deriving DecidableEq

/-- The type of value each Project field stores. -/
def ProjectField.Ty : ProjectField → Type
  | .id => Nat
  | .tags => List String
  | _ => String

/-- Functional update of one field of a record, as the object spread with a
computed key performs. -/
def setField (p : ProjectR) : (f : ProjectField) → f.Ty → ProjectR
  | .id, v => { p with id := v }
  | .title, v => { p with title := v }
  | .description, v => { p with description := v }
  | .image, v => { p with image := v }
  | .tags, v => { p with tags := v }
  | .liveUrl, v => { p with liveUrl := v }
  | .githubUrl, v => { p with githubUrl := v }

/-- Reading one field of a record. -/
def getField (p : ProjectR) : (f : ProjectField) → f.Ty
  | .id => p.id
  | .title => p.title
  | .description => p.description
  | .image => p.image
  | .tags => p.tags
  | .liveUrl => p.liveUrl
  | .githubUrl => p.githubUrl

/-- handleItemChange of EditableSection: maps over the sequence, replacing
the addressed field of every record whose id matches the target and leaving
every other record as it is. -/
def handleItemChange (items : List ProjectR) (id : Nat) (f : ProjectField)
    (v : f.Ty) : List ProjectR :=
  items.map (fun item => if item.id = id then setField item f v else item)

/-- Mapping the update over records none of which carries the target id
changes nothing. -/
theorem map_update_noop (items : List ProjectR) (id : Nat) (f : ProjectField)
    (v : f.Ty) (h : ∀ q ∈ items, q.id ≠ id) :
    items.map (fun item => if item.id = id then setField item f v else item)
      = items := by
  induction items with
  | nil => rfl
  | cons q rest ih =>
    rw [List.map_cons, if_neg (h q (by simp)), ih (fun r hr => h r (by simp [hr]))]

/-- Filtering out a target id that no record carries changes nothing. -/
theorem filter_delete_noop (items : List ProjectR) (id : Nat)
    (h : ∀ q ∈ items, q.id ≠ id) :
    handleDeleteItem items id = items := by
  induction items with
  | nil => rfl
  | cons q rest ih =>
    unfold handleDeleteItem at *
    rw [List.filter_cons, if_pos (by simp [h q (by simp)]),
        ih (fun r hr => h r (by simp [hr]))]

/-! ### C5: add prepends, but the time-derived id can collide -/

/-- C5 (code bug): handleAddItem does prepend the factory's record with all
existing records following in order, but the factory derives the fresh id
from Date.now() with no collision guard: at the failing input where the
sequence already holds a record created in the same millisecond (the same
Date.now() value 1000), the new record's id equals an existing id,
contradicting the claimed no-collision guarantee. -/
theorem handleAddItem_prepends_but_id_can_collide :
    (∀ (n : ProjectR) (items : List ProjectR), handleAddItem n items = n :: items)
    ∧ (handleAddItem (newProjectItem 1000) [newProjectItem 1000]).map
        (fun p => p.id) = [1000, 1000]
    ∧ (newProjectItem 1000).id ∈ [newProjectItem 1000].map (fun p => p.id) := by
  refine ⟨fun n items => rfl, rfl, by decide⟩

/-! ### C8: update rewrites exactly the addressed field of the addressed record -/

/-- C8: on a sequence holding exactly one record with the target id,
handleItemChange returns the sequence with exactly that record's addressed
field set to the given value; the record's other fields and every other
record are structurally unchanged. The input sequence itself is untouched:
the update is a pure map that builds a new list. -/
theorem handleItemChange_updates_exactly_one
    (l1 l2 : List ProjectR) (p : ProjectR) (id : Nat) (f : ProjectField)
    (v : f.Ty) (hp : p.id = id)
    (h1 : ∀ q ∈ l1, q.id ≠ id) (h2 : ∀ q ∈ l2, q.id ≠ id) :
    handleItemChange (l1 ++ p :: l2) id f v = l1 ++ setField p f v :: l2
    ∧ getField (setField p f v) f = v
    ∧ (∀ g : ProjectField, g ≠ f → getField (setField p f v) g = getField p g) := by
  refine ⟨?_, ?_, ?_⟩
  · unfold handleItemChange
    rw [List.map_append, List.map_cons, if_pos hp,
        map_update_noop l1 id f v h1, map_update_noop l2 id f v h2]
  · cases f <;> rfl
  · intro g hg
    cases f <;> cases g <;> first | rfl | exact absurd rfl hg

/-- C8 witness at a one-record sequence: retitling the record with id 1
rewrites the title to X, keeps its other fields, and the update reads back. -/
theorem handleItemChange_updates_exactly_one_witness :
    handleItemChange [newProjectItem 1] 1 ProjectField.title "X"
        = [setField (newProjectItem 1) ProjectField.title "X"]
    ∧ getField (setField (newProjectItem 1) ProjectField.title "X")
        ProjectField.title = "X"
    ∧ (∀ g : ProjectField, g ≠ ProjectField.title →
        getField (setField (newProjectItem 1) ProjectField.title "X") g
          = getField (newProjectItem 1) g) := by
  have h := handleItemChange_updates_exactly_one [] [] (newProjectItem 1) 1
    ProjectField.title "X" rfl (by simp) (by simp)
  simpa using h

/-! ### C9: removal is exact, and a missing id is a no-op for remove and update -/

/-- C9: handleDeleteItem returns the sequence with exactly the matching-id
record excluded and all other records in their original order; when no
record carries the target id, both handleDeleteItem and handleItemChange
return the sequence structurally unchanged. Both are total functions: a
missing id is a no-op, never an error. -/
theorem handleDeleteItem_exact_and_noop :
    (∀ (l1 l2 : List ProjectR) (p : ProjectR) (id : Nat),
        p.id = id → (∀ q ∈ l1, q.id ≠ id) → (∀ q ∈ l2, q.id ≠ id) →
        handleDeleteItem (l1 ++ p :: l2) id = l1 ++ l2)
    ∧ (∀ (items : List ProjectR) (id : Nat),
        (∀ q ∈ items, q.id ≠ id) →
        handleDeleteItem items id = items
        ∧ ∀ (f : ProjectField) (v : f.Ty), handleItemChange items id f v = items) := by
  constructor
  · intro l1 l2 p id hp hn1 hn2
    unfold handleDeleteItem
    rw [List.filter_append, List.filter_cons, if_neg (by simp [hp])]
    rw [show List.filter (fun item => item.id != id) l1 = handleDeleteItem l1 id from rfl,
        show List.filter (fun item => item.id != id) l2 = handleDeleteItem l2 id from rfl,
        filter_delete_noop l1 id hn1, filter_delete_noop l2 id hn2]
  · intro items id h
    exact ⟨filter_delete_noop items id h,
      fun f v => map_update_noop items id f v h⟩

/-- C9 witness: deleting id 1 from a two-record sequence removes exactly
that record; deleting or updating a missing id 9 leaves the sequence
unchanged. -/
theorem handleDeleteItem_exact_and_noop_witness :
    handleDeleteItem [newProjectItem 1, newProjectItem 2] 1 = [newProjectItem 2]
    ∧ handleDeleteItem [newProjectItem 5] 9 = [newProjectItem 5]
    ∧ handleItemChange [newProjectItem 5] 9 ProjectField.title "T"
        = [newProjectItem 5] := by
  have ha := handleDeleteItem_exact_and_noop.1 [] [newProjectItem 2]
    (newProjectItem 1) 1 rfl (by simp) (by decide)
  have hb := handleDeleteItem_exact_and_noop.2 [newProjectItem 5] 9 (by decide)
  exact ⟨by simpa using ha, hb.1, hb.2 ProjectField.title "T"⟩

/-! ### C7: tag-list parsing in the projects editor -/

/-- Splitting a character list at commas, as the split call with a comma
separator behaves: adjacent separators and a leading or trailing separator
produce empty segments, and the empty input produces one empty segment. -/
def splitComma : List Char → List (List Char)
  | [] => [[]]
  | c :: rest =>
    match splitComma rest with
    | [] => [[c]]
    | t :: ts => if c = ',' then [] :: t :: ts else (c :: t) :: ts

/-- Whitespace for trimming: the ASCII core of the trim call. -/
def isSpaceChar (c : Char) : Bool :=
  c = ' ' || c = '\t' || c = '\n' || c = '\r'

/-- Removing leading whitespace. -/
def dropLead (s : List Char) : List Char :=
  s.dropWhile isSpaceChar

/-- Removing trailing whitespace. -/
def dropTrail : List Char → List Char
  | [] => []
  | c :: rest =>
    if (dropTrail rest).isEmpty then (if isSpaceChar c then [] else [c])
    else c :: dropTrail rest

/-- The trim call on a character list. -/
def trimChars (s : List Char) : List Char :=
  dropTrail (dropLead s)

/-- The tags parser of the projects editor: the edited string split at
commas, each segment trimmed. -/
def parseTags (s : List Char) : List (List Char) :=
  (splitComma s).map trimChars

/-- The canonical delimited form the editor displays: the tags joined with
a comma and a space. -/
def joinTags : List (List Char) → List Char
  | [] => []
  | [t] => t
  | t :: ts => t ++ ',' :: ' ' :: joinTags ts

theorem dropLead_cons_pos (c : Char) (rest : List Char) (h : isSpaceChar c = true) :
    dropLead (c :: rest) = dropLead rest := by
  simp [dropLead, List.dropWhile_cons, h]

theorem dropLead_cons_neg (c : Char) (rest : List Char) (h : isSpaceChar c = false) :
    dropLead (c :: rest) = c :: rest := by
  simp [dropLead, List.dropWhile_cons, h]

theorem dropLead_head (s : List Char) (c : Char) (r : List Char)
    (h : dropLead s = c :: r) : isSpaceChar c = false := by
  induction s with
  | nil => exact absurd h (by simp [dropLead])
  | cons a as ih =>
    by_cases ha : isSpaceChar a
    · exact ih (by rw [← dropLead_cons_pos a as ha]; exact h)
    · simp only [Bool.not_eq_true] at ha
      rw [dropLead_cons_neg a as ha] at h
      injection h with h1 _
      rw [← h1]
      exact ha

theorem dropLead_idem (s : List Char) : dropLead (dropLead s) = dropLead s := by
  cases hy : dropLead s with
  | nil => rfl
  | cons c rest =>
    exact dropLead_cons_neg c rest (dropLead_head s c rest hy)

theorem dropTrail_cons_of_nil (c : Char) (rest : List Char)
    (h : dropTrail rest = []) :
    dropTrail (c :: rest) = if isSpaceChar c then [] else [c] := by
  simp only [dropTrail]
  rw [h]
  rfl

theorem dropTrail_cons_of_ne (c : Char) (rest : List Char)
    (h : dropTrail rest ≠ []) :
    dropTrail (c :: rest) = c :: dropTrail rest := by
  simp only [dropTrail]
  rw [if_neg (by simpa [List.isEmpty_iff] using h)]

theorem dropTrail_head (c : Char) (rest : List Char) :
    dropTrail (c :: rest) = [] ∨ ∃ r, dropTrail (c :: rest) = c :: r := by
  cases hr : dropTrail rest with
  | nil =>
    rw [dropTrail_cons_of_nil c rest hr]
    by_cases h : isSpaceChar c
    · left
      rw [if_pos h]
    · right
      exact ⟨[], by rw [if_neg h]⟩
  | cons d ds =>
    right
    exact ⟨d :: ds, by rw [dropTrail_cons_of_ne c rest (by rw [hr]; exact List.cons_ne_nil d ds), hr]⟩

theorem dropTrail_idem (s : List Char) : dropTrail (dropTrail s) = dropTrail s := by
  induction s with
  | nil => rfl
  | cons c rest ih =>
    cases hr : dropTrail rest with
    | nil =>
      rw [dropTrail_cons_of_nil c rest hr]
      by_cases h : isSpaceChar c
      · rw [if_pos h]
        rfl
      · rw [if_neg h, dropTrail_cons_of_nil c [] rfl, if_neg h]
    | cons d ds =>
      rw [hr] at ih
      rw [dropTrail_cons_of_ne c rest (by rw [hr]; exact List.cons_ne_nil d ds), hr,
          dropTrail_cons_of_ne c (d :: ds) (by rw [ih]; exact List.cons_ne_nil d ds), ih]

theorem dropLead_dropTrail_dropLead (s : List Char) :
    dropLead (dropTrail (dropLead s)) = dropTrail (dropLead s) := by
  cases hy : dropLead s with
  | nil => rfl
  | cons c rest =>
    have hc : isSpaceChar c = false := dropLead_head s c rest hy
    rcases dropTrail_head c rest with h | ⟨r, h⟩
    · rw [h]
      rfl
    · rw [h]
      exact dropLead_cons_neg c r hc

theorem trimChars_idem (s : List Char) : trimChars (trimChars s) = trimChars s := by
  unfold trimChars
  rw [dropLead_dropTrail_dropLead s, dropTrail_idem]

theorem splitComma_cons (c : Char) (rest : List Char) (t : List Char)
    (ts : List (List Char)) (h : splitComma rest = t :: ts) :
    splitComma (c :: rest) = if c = ',' then [] :: t :: ts else (c :: t) :: ts := by
  simp only [splitComma]
  rw [h]

theorem splitComma_ne_nil (s : List Char) : splitComma s ≠ [] := by
  induction s with
  | nil => simp [splitComma]
  | cons c rest ih =>
    cases h : splitComma rest with
    | nil => exact absurd h ih
    | cons t ts =>
      rw [splitComma_cons c rest t ts h]
      by_cases hc : c = ',' <;> simp [hc]

theorem splitComma_nocomma (t : List Char) (h : ',' ∉ t) : splitComma t = [t] := by
  induction t with
  | nil => rfl
  | cons c rest ih =>
    have hc : c ≠ ',' := fun hh => h (by rw [hh]; exact List.mem_cons_self _ _)
    have hrest : ',' ∉ rest := fun hm => h (List.mem_cons_of_mem c hm)
    rw [splitComma_cons c rest rest [] (ih hrest), if_neg hc]

theorem splitComma_append (t w : List Char) (h : ',' ∉ t) :
    splitComma (t ++ ',' :: w) = t :: splitComma w := by
  induction t with
  | nil =>
    rw [List.nil_append]
    cases hw : splitComma w with
    | nil => exact absurd hw (splitComma_ne_nil w)
    | cons u us => rw [splitComma_cons ',' w u us hw, if_pos rfl]
  | cons c t2 ih =>
    have hc : c ≠ ',' := fun hh => h (by rw [hh]; exact List.mem_cons_self _ _)
    have ht2 : ',' ∉ t2 := fun hm => h (List.mem_cons_of_mem c hm)
    have ih2 := ih ht2
    rw [List.cons_append]
    cases hs : splitComma (t2 ++ ',' :: w) with
    | nil => exact absurd hs (splitComma_ne_nil _)
    | cons u us =>
      rw [splitComma_cons c (t2 ++ ',' :: w) u us hs, if_neg hc]
      rw [hs] at ih2
      injection ih2 with h1 h2
      rw [h1, h2]

theorem parseTags_space (s : List Char) : parseTags (' ' :: s) = parseTags s := by
  unfold parseTags
  cases hs : splitComma s with
  | nil => exact absurd hs (splitComma_ne_nil s)
  | cons u us =>
    rw [splitComma_cons ' ' s u us hs, if_neg (by decide),
        List.map_cons, List.map_cons]
    congr 1

/-- C7 counterexample: parsing the concrete input a,,b yields the token
sequence a, empty, b, whose middle token is the empty string; the code keeps
empty segments, so the claim that parsing never produces an empty token is
false at this input. -/
theorem parseTags_empty_token_cex :
    parseTags ['a', ',', ',', 'b'] = [['a'], [], ['b']]
    ∧ [] ∈ parseTags ['a', ',', ',', 'b'] := by
  constructor <;> decide

/-- C7 amended: every token the parser produces is trimmed (trimming it
again changes nothing), and parsing the canonical comma-space joined form of
a nonempty sequence of trimmed, comma-free tokens reproduces exactly that
token sequence. Tokens may, however, be empty: empty segments between
adjacent commas are kept, and the empty sequence does not round-trip (its
join parses back to one empty token). -/
theorem parseTags_trimmed_and_roundtrip :
    (∀ (s t : List Char), t ∈ parseTags s → trimChars t = t)
    ∧ (∀ ts : List (List Char), ts ≠ [] →
        (∀ t ∈ ts, trimChars t = t ∧ ',' ∉ t) →
        parseTags (joinTags ts) = ts) := by
  constructor
  · intro s t ht
    unfold parseTags at ht
    rcases List.mem_map.mp ht with ⟨u, _, hu⟩
    rw [← hu]
    exact trimChars_idem u
  · intro ts
    induction ts with
    | nil => exact fun h _ => absurd rfl h
    | cons t ts2 ih =>
      intro _ hall
      cases ts2 with
      | nil =>
        have ht := hall t (List.mem_cons_self _ _)
        rw [show joinTags [t] = t from rfl]
        unfold parseTags
        rw [splitComma_nocomma t ht.2, List.map_cons, List.map_nil, ht.1]
      | cons t2 ts3 =>
        have ht := hall t (List.mem_cons_self _ _)
        have hrest : ∀ u ∈ t2 :: ts3, trimChars u = u ∧ ',' ∉ u :=
          fun u hu => hall u (List.mem_cons_of_mem t hu)
        have ihr := ih (List.cons_ne_nil t2 ts3) hrest
        rw [show joinTags (t :: t2 :: ts3)
              = t ++ ',' :: ' ' :: joinTags (t2 :: ts3) from rfl]
        unfold parseTags
        rw [splitComma_append t (' ' :: joinTags (t2 :: ts3)) ht.2,
            List.map_cons, ht.1]
        congr 1
        rw [show (splitComma (' ' :: joinTags (t2 :: ts3))).map trimChars
              = parseTags (' ' :: joinTags (t2 :: ts3)) from rfl,
            parseTags_space, ihr]

/-- C7 amended witness: the parsed token a is already trimmed, and the
two-token sequence a, b survives the join-then-parse round trip. -/
theorem parseTags_trimmed_and_roundtrip_witness :
    trimChars ['a'] = ['a']
    ∧ parseTags (joinTags [['a'], ['b']]) = [['a'], ['b']] := by
  refine ⟨?_, ?_⟩
  · exact parseTags_trimmed_and_roundtrip.1 ['a'] ['a'] (by decide)
  · exact parseTags_trimmed_and_roundtrip.2 [['a'], ['b']] (by decide) (by decide)
